import Mathlib

/-!
# Subdomain monitor: line-set utilities, snapshot files and change notification

A shallow embedding of `src/main.go` and proofs about it.

* Go `string` values are byte sequences (`GoString`); slices of strings are lists
  (a `nil` slice and an empty slice are both `[]`).
* A Go `map[string]bool` that is only written with `m[k] = v` and read with `m[k]`
  is a total function to `Bool` whose default is `false` (`BoolMap`).
* Loops `for _, x := range xs` are left folds over `xs`, `append` is `++ [x]`.
-/

namespace SubdomainMonitor

/-! ## Strings -/

/-- A Go string: an immutable sequence of bytes. -/
abbrev GoString := List UInt8

/-- The Go string denoted by a source literal (its UTF-8 bytes). -/
def str (s : String) : GoString := s.toUTF8.data.toList

/-! ## `map[string]bool` -/

/-- A Go `map[string]bool`, observed through the index expression `m[k]`,
which yields the zero value `false` for a key that is not present. -/
structure BoolMap where
  get : GoString → Bool

/-- The empty map `make(map[string]bool)`. -/
def BoolMap.make : BoolMap := ⟨fun _ => false⟩

/-- The assignment `m[k] = v`. -/
def BoolMap.set (m : BoolMap) (k : GoString) (v : Bool) : BoolMap :=
  ⟨fun k' => if k' = k then v else m.get k'⟩

/-! ## Line-set utilities (`src/main.go` lines 111-151) -/

/-- Embedding of `findAdded`: build `prevMap` from `previous`, then append to `added`
every item of `current` whose `prevMap` entry is false. -/
def findAdded (current previous : List GoString) : List GoString :=
  let prevMap := previous.foldl (fun m item => m.set item true) BoolMap.make
  current.foldl (fun added item => if !prevMap.get item then added ++ [item] else added) []

/-- Embedding of `findDeleted`: build `currentMap` from `current`, then append to `deleted`
every item of `previous` whose `currentMap` entry is false. -/
def findDeleted (current previous : List GoString) : List GoString :=
  let currentMap := current.foldl (fun m item => m.set item true) BoolMap.make
  previous.foldl (fun deleted item => if !currentMap.get item then deleted ++ [item] else deleted) []

/-- One iteration of the loop of `removeDuplicates` on the state `(encountered, result)`. -/
def removeDuplicatesStep (st : BoolMap × List GoString) (v : GoString) :
    BoolMap × List GoString :=
  if !st.1.get v then (st.1.set v true, st.2 ++ [v]) else st

/-- Embedding of `removeDuplicates`. -/
def removeDuplicates (elements : List GoString) : List GoString :=
  (elements.foldl removeDuplicatesStep (BoolMap.make, [])).2

/-! ## Errors, files and the process environment -/

/-- Go `error` values that occur in the program. -/
inductive GoError where
  /-- A `*fs.PathError`: the operation, the path and the text of the system error. -/
  | pathError (op path cause : GoString)
  /-- A `*os.LinkError`: the operation, both paths and the text of the system error. -/
  | linkError (op oldpath newpath cause : GoString)
  /-- The error `bufio.ErrTooLong`. -/
  | tooLong
  /-- An error reported by the outside world (child process, JSON encoder, HTTP client). -/
  | foreign (msg : GoString)
  deriving DecidableEq

/-- The method `Error()`, used by the verb `%v`. -/
def GoError.Error : GoError → GoString
  | .pathError op path cause => op ++ str " " ++ path ++ str ": " ++ cause
  | .linkError op oldpath newpath cause =>
    op ++ str " " ++ oldpath ++ str " " ++ newpath ++ str ": " ++ cause
  | .tooLong => str "bufio.Scanner: token too long"
  | .foreign msg => msg

/-- The text of the system error `ENOENT`. -/
def ENOENT : GoString := str "no such file or directory"

/-- The file-system state.  Paths are compared as strings.  Directories and permissions are
not represented one by one: `blocked` records, for each path, whether and why the system
refuses to create a file there or to rename one onto it. -/
structure FS where
  /-- The content of the file at a path, `none` when there is no such file. -/
  files : GoString → Option GoString
  /-- The text of the system error that creating a file at the path meets (for a missing
  or read-only directory, an empty name, ...), `none` when the file can be created. -/
  blocked : GoString → Option GoString

/-- The file system with the content of `path` replaced. -/
def FS.write (fs : FS) (path content : GoString) : FS :=
  { fs with files := fun p => if p = path then some content else fs.files p }

/-- The file system with `path` unlinked. -/
def FS.unlink (fs : FS) (path : GoString) : FS :=
  { fs with files := fun p => if p = path then none else fs.files p }

/-- The file system with `path` in the given state: a content, or `none` for no file. -/
def FS.put (fs : FS) (path : GoString) (state : Option GoString) : FS :=
  { fs with files := fun p => if p = path then state else fs.files p }

/-- Model of `os.Open` followed by reading the whole file: the content, or the error. -/
def os_Open (fs : FS) (path : GoString) : Except GoError GoString :=
  match fs.files path with
  | some content => .ok content
  | none => .error (.pathError (str "open") path ENOENT)

/-- Model of `os.Create`: the file is created or truncated, unless the system refuses. -/
def os_Create (fs : FS) (path : GoString) : Except GoError FS :=
  match fs.blocked path with
  | some cause => .error (.pathError (str "open") path cause)
  | none => .ok (fs.write path [])

/-- Model of `os.Rename`: the old file replaces the new one; it fails when the old file is
missing or when the system refuses the new path. -/
def os_Rename (fs : FS) (oldpath newpath : GoString) : Except GoError FS :=
  match fs.files oldpath with
  | none => .error (.linkError (str "rename") oldpath newpath ENOENT)
  | some content =>
    match fs.blocked newpath with
    | some cause => .error (.linkError (str "rename") oldpath newpath cause)
    | none => .ok ((fs.unlink oldpath).write newpath content)

/-- Model of `os.Remove`. -/
def os_Remove (fs : FS) (path : GoString) : Except GoError FS :=
  match fs.files path with
  | some _ => .ok (fs.unlink path)
  | none => .error (.pathError (str "remove") path ENOENT)

/-! ## `bufio.Scanner` with the default split function `bufio.ScanLines` -/

/-- The constant `bufio.MaxScanTokenSize`. -/
def MaxScanTokenSize : Nat := 64 * 1024

/-- Model of `bytes.IndexByte`: the index of the first `c` in `b`, `none` for `-1`. -/
def IndexByte (b : GoString) (c : UInt8) : Option Nat :=
  match b with
  | [] => none
  | x :: rest => if x = c then some 0 else (IndexByte rest c).map (· + 1)

/-- Model of `bufio.dropCR`: drop one terminal carriage return. -/
def dropCR (data : GoString) : GoString :=
  if data.length > 0 ∧ data.getLast? = some 13 then data.dropLast else data

/-- Model of `bufio.ScanLines`: the advance and the token (`none` for a nil token, which
asks for more data). -/
def ScanLines (data : GoString) (atEOF : Bool) : Nat × Option GoString :=
  if atEOF && data.length == 0 then (0, none)
  else match IndexByte data 10 with
    | some i => (i + 1, some (dropCR (data.take i)))
    | none => if atEOF then (data.length, some (dropCR data)) else (0, none)

/-- A `bufio.Scanner` over a reader: `input` is what the reader still holds and the scanner
has not consumed, `token` is the last token, `err` the sticky error (`io.EOF` is not kept,
as `Err()` reports it as nil). -/
structure Scanner where
  input : GoString
  token : GoString
  err : Option GoError

/-- Model of `bufio.NewScanner`. -/
def bufio_NewScanner (r : GoString) : Scanner := ⟨r, [], none⟩

/-- Model of `Scanner.Scan`.  The buffer grows up to `MaxScanTokenSize` bytes, so the split
function eventually sees the first `MaxScanTokenSize` bytes of the unconsumed input, and it
sees them at end of file exactly when the input is shorter than that.  A full buffer without
a token is `ErrTooLong`. -/
def Scanner.Scan (s : Scanner) : Bool × Scanner :=
  let atEOF := decide (s.input.length < MaxScanTokenSize)
  match ScanLines (s.input.take MaxScanTokenSize) atEOF with
  | (advance, some token) => (true, ⟨s.input.drop advance, token, s.err⟩)
  | (_, none) => if atEOF then (false, s) else (false, ⟨s.input, s.token, some .tooLong⟩)

/-- The loop `for scanner.Scan() { lines = append(lines, scanner.Text()) }`, with a bound on
the number of iterations. -/
def readLinesLoop : Nat → Scanner → List GoString → List GoString × Scanner
  | 0, s, lines => (lines, s)
  | fuel + 1, s, lines =>
    match s.Scan with
    | (true, s') => readLinesLoop fuel s' (lines ++ [s'.token])
    | (false, s') => (lines, s')

/-- The lines and the error that `readLines` returns for a file with content `file`.  Every
successful `Scan` consumes at least one byte, so `file.length + 1` iterations are enough
(`readLinesLoop_fuel`). -/
def scanFile (file : GoString) : List GoString × Option GoError :=
  let r := readLinesLoop (file.length + 1) (bufio_NewScanner file) []
  (r.1, r.2.err)

/-- Embedding of `readLines` (lines 96-109). -/
def readLines (fs : FS) (path : GoString) : List GoString × Option GoError :=
  match os_Open fs path with
  | .error err => ([], some err)
  | .ok file => scanFile file

/-- Model of `fmt.Fprintln(w, line)` on the bytes written to `w` so far. -/
def Fprintln (w : GoString) (line : GoString) : GoString := w ++ line ++ [10]

/-- Embedding of `writeLines` (lines 153-165): the error returned and the new file system.
The buffered writer is the byte string written so far; `Flush` puts it in the file. -/
def writeLines (lines : List GoString) (path : GoString) (fs : FS) : Option GoError × FS :=
  match os_Create fs path with
  | .error err => (some err, fs)
  | .ok fs' =>
    let w := lines.foldl Fprintln []
    (none, fs'.write path w)

/-! ## The outside world -/

/-- An observable effect of the process. -/
inductive Event where
  /-- A line written by the `log` package (without its time stamp). -/
  | log (line : GoString)
  /-- A call of `http.Post`. -/
  | httpPost (url contentType body : GoString)
  deriving DecidableEq

/-- The state the process acts on: the file system, the environment variables and the
trace of effects so far. -/
structure World where
  fs : FS
  env : GoString → Option GoString
  trace : List Event

/-- What the program does not determine: the external commands, the JSON encoder and the
HTTP server. -/
structure Oracle where
  /-- The command `shuffledns -w wordlistFile -d websiteAddress -r resolvers.txt -o outputFile
  -mode bruteforce`: the error of `cmd.Run()`, or the state in which a successful run leaves
  `outputFile` (its content, or `none` when there is no such file afterwards). -/
  shuffledns : (wordlistFile websiteAddress outputFile : GoString) →
    Except GoError (Option GoString)
  /-- The command `sh -c command` on a file system: the error of `cmd.Run()` (`none` for
  exit status 0) and the file system the shell and its children leave behind. -/
  sh : (command : GoString) → FS → Option GoError × FS
  /-- The call `json.Marshal` on the payload with the given `Content`. -/
  jsonMarshal : (content : GoString) → Except GoError GoString
  /-- The answer to `http.Post` after the given trace: an error or the status code. -/
  httpPost : (history : List Event) → (url contentType body : GoString) → Except GoError Nat

/-- The result of running a part of the program: it returned, or the process exited through
`log.Fatalf`. -/
inductive Run (α : Type) where
  | done (a : α) (w : World)
  | fatal (w : World)

/-- The world in which a run returned or exited. -/
def Run.world {α : Type} : Run α → World
  | .done _ w => w
  | .fatal w => w

/-- Model of `os.Getenv`: the empty string for an unset variable. -/
def os_Getenv (w : World) (key : GoString) : GoString := (w.env key).getD []

/-- Model of `log.Println` and of `log.Printf` on the formatted line. -/
def log_Println (line : GoString) (w : World) : World :=
  { w with trace := w.trace ++ [Event.log line] }

/-- Decimal rendering of the verb `%d`. -/
def itoa (n : Nat) : GoString := str (toString n)

/-- Model of `http.Post`: the call is recorded, the outside world answers. -/
def http_Post (x : Oracle) (url contentType body : GoString) (w : World) :
    Except GoError Nat × World :=
  (x.httpPost w.trace url contentType body,
    { w with trace := w.trace ++ [Event.httpPost url contentType body] })

/-- An event is a call of `http.Post`. -/
def Event.isPost : Event → Bool
  | .httpPost _ _ _ => true
  | .log _ => false

/-- The network calls of a trace, in order. -/
def posts (t : List Event) : List Event := t.filter Event.isPost

/-! ## Notification (lines 167-220) -/

/-- Embedding of `sendDiscordNotification`. -/
def sendDiscordNotification (x : Oracle) (message : GoString) (w : World) : World :=
  let webhookURL := os_Getenv w (str "DISCORD_TOKEN")
  if webhookURL = [] then
    log_Println (str "DISCORD_TOKEN environment variable not set. Skipping notification.") w
  else
    match x.jsonMarshal message with
    | .error err => log_Println (str "failed to marshal discord payload: " ++ err.Error) w
    | .ok jsonPayload =>
      match http_Post x webhookURL (str "application/json") jsonPayload w with
      | (.error err, w') =>
        log_Println (str "failed to send discord notification: " ++ err.Error) w'
      | (.ok statusCode, w') =>
        if statusCode ≥ 300 then
          log_Println (str "discord notification failed with status code: " ++ itoa statusCode) w'
        else w'

/-- Embedding of `notifySubdomainChanges`. -/
def notifySubdomainChanges (x : Oracle) (added deleted : List GoString) (w : World) :
    World :=
  let w :=
    if added.length > 0 then
      added.foldl
        (fun w sub => sendDiscordNotification x (str "Subdomain Added: " ++ sub)
          (log_Println sub w))
        (log_Println (str "Subdomains Added:") w)
    else w
  if deleted.length > 0 then
    deleted.foldl
      (fun w sub => sendDiscordNotification x (str "Subdomain Deleted: " ++ sub)
        (log_Println sub w))
      (log_Println (str "Subdomains Deleted:") w)
  else w

/-- Embedding of `notifyHttpxChanges`. -/
def notifyHttpxChanges (x : Oracle) (changes : List GoString) (w : World) : World :=
  if changes.length > 0 then
    changes.foldl
      (fun w change => sendDiscordNotification x (str "Service change: " ++ change)
        (log_Println change w))
      (log_Println (str "Service changes:") w)
  else w

/-! ## External commands (lines 70-94) -/

/-- Embedding of `runShuffledns`: a failing command is fatal; after a successful one the
output file is as the command left it, and no other file has changed. -/
def runShuffledns (x : Oracle) (wordlistFile websiteAddress outputFile : GoString)
    (w : World) : Run Unit :=
  match x.shuffledns wordlistFile websiteAddress outputFile with
  | .error err => .fatal (log_Println (str "shuffledns command failed: " ++ err.Error) w)
  | .ok out =>
    .done () (log_Println (str "shuffledns command executed successfully")
      { w with fs := w.fs.put outputFile out })

/-- The command line that `runHttpx` hands to `sh -c` (lines 86-88): both file names are
spliced into it as they are. -/
def httpxCommand (inputFile outputFile : GoString) : GoString :=
  str "cat " ++ inputFile
    ++ str (" | dnsx -silent | httpx -silent -follow-host-redirects -nc -title -status-code "
      ++ "-cdn -tech-detect ")
    ++ str ("-H \"User-Agent: Mozilla/5.0 (Macintosh; Intel Mac OS X 10.15; rv:108.0) "
      ++ "Gecko/20100101 Firefox/108.0\" ")
    ++ str "> " ++ outputFile

/-- Embedding of `runHttpx`: the shell runs the command line; a failing command is fatal.
What the shell reads and writes is decided by the command line, so it is left to the
outside world. -/
def runHttpx (x : Oracle) (inputFile outputFile : GoString) (w : World) : Run Unit :=
  match x.sh (httpxCommand inputFile outputFile) w.fs with
  | (some err, fs) =>
    .fatal (log_Println (str "httpx command failed: " ++ err.Error) { w with fs := fs })
  | (none, fs) =>
    .done () (log_Println (str "httpx command executed successfully") { w with fs := fs })

/-! ## The orchestrator (lines 14-68) -/

/-- The value of an `Except` whose error is discarded, as in `os.Rename(a, b)` used as a
statement: the state is unchanged when the call fails. -/
def orKeep (r : Except GoError FS) (fs : FS) : FS :=
  match r with
  | .ok fs' => fs'
  | .error _ => fs

/-- The loop `for i := 0; i < 3; i++` of `main` (lines 29-36); `n` is the number of
iterations left and `i` the loop variable. -/
def enumerateLoop (x : Oracle) (wordlistFile websiteAddress : GoString) :
    Nat → Nat → List GoString → World → Run (List GoString)
  | 0, _, allSubs, w => .done allSubs w
  | n + 1, i, allSubs, w =>
    let w := log_Println (str "Running shuffledns scan #" ++ itoa (i + 1) ++ str "...") w
    let tempOutputFile := str "output_" ++ itoa i ++ str ".txt"
    match runShuffledns x wordlistFile websiteAddress tempOutputFile w with
    | .fatal w => .fatal w
    | .done _ w =>
      let subs := (readLines w.fs tempOutputFile).1
      let allSubs := allSubs ++ subs
      let w := { w with fs := orKeep (os_Remove w.fs tempOutputFile) w.fs }
      enumerateLoop x wordlistFile websiteAddress n (i + 1) allSubs w

/-- Embedding of `main`; `args` is `os.Args`. -/
def main (x : Oracle) (args : List GoString) (w : World) : Run Unit :=
  match args with
  | _ :: wordlistFile :: websiteAddress :: _ =>
    let outputFile := str "output." ++ websiteAddress ++ str ".txt"
    let prevOutputFile := str "prev_output." ++ websiteAddress ++ str ".txt"
    let httpxOutputFile := str "httpx_res.txt"
    let prevHttpxOutputFile := str "prev_httpx_res.txt"
    let w := log_Println (str "Starting subdomain enumeration...") w
    match enumerateLoop x wordlistFile websiteAddress 3 0 [] w with
    | .fatal w => .fatal w
    | .done allSubs w =>
      let w := log_Println (str "Consolidating and deduplicating results...") w
      let allSubs := removeDuplicates allSubs
      let w := { w with fs := (writeLines allSubs outputFile w.fs).2 }
      let w := log_Println (str "Comparing subdomain lists...") w
      let currentSubs := (readLines w.fs outputFile).1
      let prevSubs := (readLines w.fs prevOutputFile).1
      let addedSubs := findAdded currentSubs prevSubs
      let deletedSubs := findDeleted currentSubs prevSubs
      let w := notifySubdomainChanges x addedSubs deletedSubs w
      let w := log_Println (str "Updating previous subdomain list...") w
      let w := { w with fs := orKeep (os_Rename w.fs outputFile prevOutputFile) w.fs }
      let w := log_Println (str "Starting HTTP service analysis...") w
      match runHttpx x prevOutputFile httpxOutputFile w with
      | .fatal w => .fatal w
      | .done _ w =>
        let w := log_Println (str "Comparing HTTP service scan results...") w
        let currentHttpx := (readLines w.fs httpxOutputFile).1
        let prevHttpx := (readLines w.fs prevHttpxOutputFile).1
        let changes := findAdded currentHttpx prevHttpx
        let w := notifyHttpxChanges x changes w
        let w := log_Println (str "Updating previous HTTP service scan results...") w
        let w := { w with fs := orKeep (os_Rename w.fs httpxOutputFile prevHttpxOutputFile) w.fs }
        .done () (log_Println (str "Process completed successfully.") w)
  | _ => .done () (log_Println (str "Usage: go run . <wordlist_file> <website_address>") w)

/-! ## Invariants and sample data -/

/-- Loop invariant of `removeDuplicates` after the prefix `P` of the input has been
consumed, on the state `(encountered, result)`. -/
def DedupInv (P : List GoString) (st : BoolMap × List GoString) : Prop :=
  (∀ x, st.1.get x = true ↔ x ∈ st.2) ∧ st.2.Nodup ∧ (∀ x, x ∈ st.2 ↔ x ∈ P) ∧
  (∀ x y, x ∈ P → y ∈ P →
    (List.indexOf x st.2 < List.indexOf y st.2 ↔ List.indexOf x P < List.indexOf y P))

/-- The lines `readLines` obtains from a file in the given state (`none`: no such file). -/
def linesLeft (out : Option GoString) : List GoString :=
  match out with
  | some content => (scanFile content).1
  | none => []

/-- A sample outside world: three scans with overlapping results (the second leaves no
file), a pipeline that exits with status 0 after writing one line to `httpx_res.txt`, an
encoder that wraps the content in quotes, and a server that accepts. -/
def sampleOracle : Oracle where
  shuffledns := fun _ _ outputFile =>
    if outputFile = str "output_0.txt" then .ok (some (str "a.example.com\nb.example.com\n"))
    else if outputFile = str "output_1.txt" then .ok none
    else .ok (some (str "c.example.com\na.example.com\n"))
  sh := fun _ fs => (none, fs.write (str "httpx_res.txt") (str "https://a.example.com [200]\n"))
  jsonMarshal := fun content => .ok (str "\"" ++ content ++ str "\"")
  httpPost := fun _ _ _ _ => .ok 204

/-- A sample initial state: an older snapshot is on disk, every path can be created and a
webhook is configured. -/
def sampleWorld : World where
  fs :=
    { files := fun p =>
        if p = str "prev_output.example.com.txt" then some (str "old.example.com\n") else none
      blocked := fun _ => none }
  env := fun k => if k = str "DISCORD_TOKEN" then some (str "https://hook.example/1") else none
  trace := []

/-- A sample file system with no file, in which every path can be created. -/
def emptyFS : FS where
  files := fun _ => none
  blocked := fun _ => none

/-- A sample initial state with no snapshot on disk and no webhook. -/
def emptyWorld : World where
  fs := emptyFS
  env := fun _ => none
  trace := []

/-- A sample initial state with no snapshot on disk and a webhook. -/
def freshWorld : World where
  fs := emptyFS
  env := fun k => if k = str "DISCORD_TOKEN" then some (str "https://hook.example/1") else none
  trace := []

/-- A sample initial state for the domain `a/b`: the working directory is empty, so the
directories `output.a` and `prev_output.a` that the snapshot paths name do not exist. -/
def missingDirWorld : World where
  fs :=
    { files := fun _ => none
      blocked := fun p =>
        if p = str "output.a/b.txt" ∨ p = str "prev_output.a/b.txt" then some ENOENT
        else none }
  env := fun _ => none
  trace := []

/-! ## Lemmas on the line-set utilities -/

theorem markAll_get (l : List GoString) (m : BoolMap) (x : GoString) :
    (l.foldl (fun m item => m.set item true) m).get x = (m.get x || decide (x ∈ l)) := by
  induction l generalizing m with
  | nil => simp
  | cons a l ih =>
    rw [List.foldl_cons, ih]
    by_cases h : x = a
    · simp [BoolMap.set, h]
    · simp [BoolMap.set, h]

theorem collect_eq_filter (p : GoString → Bool) (l acc : List GoString) :
    l.foldl (fun added item => if p item then added ++ [item] else added) acc
      = acc ++ l.filter p := by
  induction l generalizing acc with
  | nil => simp
  | cons a l ih =>
    rw [List.foldl_cons, ih]
    by_cases h : p a
    · simp [h]
    · simp [h]

theorem findAdded_eq_filter (current previous : List GoString) :
    findAdded current previous = current.filter (fun x => decide (x ∉ previous)) := by
  unfold findAdded
  simp only []
  rw [collect_eq_filter (fun item => !(previous.foldl (fun m item => m.set item true)
    BoolMap.make).get item)]
  simp [markAll_get, BoolMap.make]

theorem findDeleted_eq_filter (current previous : List GoString) :
    findDeleted current previous = previous.filter (fun x => decide (x ∉ current)) := by
  unfold findDeleted
  simp only []
  rw [collect_eq_filter (fun item => !(current.foldl (fun m item => m.set item true)
    BoolMap.make).get item)]
  simp [markAll_get, BoolMap.make]

/-! ## Theorems -/

/-- C1: `findAdded current previous` is exactly the sequence of items of `current` that
do not occur in `previous`, in the order and multiplicity of `current`; no element of the
result occurs in `previous` and every element of the result occurs in `current`. -/
theorem findAdded_spec (current previous : List GoString) :
    findAdded current previous = current.filter (fun x => decide (x ∉ previous))
    ∧ (∀ x ∈ findAdded current previous, x ∉ previous)
    ∧ (∀ x ∈ findAdded current previous, x ∈ current) := by
  refine ⟨findAdded_eq_filter current previous, ?_, ?_⟩
  · intro x hx
    rw [findAdded_eq_filter] at hx
    simpa using (List.mem_filter.1 hx).2
  · intro x hx
    rw [findAdded_eq_filter] at hx
    exact (List.mem_filter.1 hx).1

theorem findAdded_spec_witness :
    findAdded [str "c.example.com", str "b.example.com", str "c.example.com"]
        [str "a.example.com", str "b.example.com"]
      = [str "c.example.com", str "c.example.com"]
    ∧ str "c.example.com" ∉ [str "a.example.com", str "b.example.com"]
    ∧ str "c.example.com" ∈ [str "c.example.com", str "b.example.com", str "c.example.com"] :=
  have h := findAdded_spec [str "c.example.com", str "b.example.com", str "c.example.com"]
    [str "a.example.com", str "b.example.com"]
  ⟨by decide, h.2.1 (str "c.example.com") (by decide), h.2.2 (str "c.example.com") (by decide)⟩

/-- C3: `findDeleted A B = findAdded B A`, and the deleted items are exactly the items of
`previous` absent from `current`, in the order of `previous`. -/
theorem findDeleted_eq_findAdded_swap (A B : List GoString) :
    findDeleted A B = findAdded B A
    ∧ findDeleted A B = B.filter (fun x => decide (x ∉ A)) :=
  ⟨rfl, findDeleted_eq_filter A B⟩

/-! ### `removeDuplicates` -/

theorem firstIndex_append_of_mem {α} [BEq α] [LawfulBEq α] {a : α} {l₁ l₂ : List α} (h : a ∈ l₁) :
    List.indexOf a (l₁ ++ l₂) = List.indexOf a l₁ := by
  induction l₁ with
  | nil => simp at h
  | cons b l ih =>
    rw [List.cons_append, List.indexOf_cons, List.indexOf_cons]
    by_cases hb : b = a
    · simp [hb]
    · have : a ∈ l := by
        rcases List.mem_cons.1 h with h1 | h1
        · exact absurd h1.symm hb
        · exact h1
      have hb' : (b == a) = false := by simpa using hb
      simp [hb', ih this]
theorem firstIndex_append_of_not_mem {α} [BEq α] [LawfulBEq α] {a : α} {l₁ l₂ : List α} (h : a ∉ l₁) :
    List.indexOf a (l₁ ++ l₂) = l₁.length + List.indexOf a l₂ := by
  induction l₁ with
  | nil => simp
  | cons b l ih =>
    rw [List.cons_append, List.indexOf_cons]
    have hb : (b == a) = false := by
      have : ¬ b = a := fun e => h (by simp [e])
      simpa using this
    have hl : a ∉ l := fun e => h (List.mem_cons_of_mem _ e)
    rw [hb, ih hl]; simp; omega
theorem firstIndex_lt_length {α} [BEq α] [LawfulBEq α] {a : α} {l : List α} (h : a ∈ l) :
    List.indexOf a l < l.length := by
  induction l with
  | nil => simp at h
  | cons b l ih =>
    rw [List.indexOf_cons]
    by_cases hb : b = a
    · simp [hb]
    · have : a ∈ l := by
        rcases List.mem_cons.1 h with h1 | h1
        · exact absurd h1.symm hb
        · exact h1
      have hb' : (b == a) = false := by simpa using hb
      rw [hb']; simp; exact ih this

theorem dedupInv_init : DedupInv [] (BoolMap.make, []) := by
  refine ⟨?_, List.nodup_nil, ?_, ?_⟩
  · intro x; simp [BoolMap.make]
  · intro x; simp
  · intro x y hx; simp at hx

theorem indexOf_snoc_new {l : List GoString} {v : GoString} (hv : v ∉ l) :
    List.indexOf v (l ++ [v]) = l.length := by
  rw [firstIndex_append_of_not_mem hv, List.indexOf_cons]; simp

theorem dedupInv_step (P : List GoString) (st : BoolMap × List GoString) (v : GoString)
    (h : DedupInv P st) : DedupInv (P ++ [v]) (removeDuplicatesStep st v) := by
  obtain ⟨m, r⟩ := st
  obtain ⟨hmap, hnd, hmem, hord⟩ := h
  simp only at hmap hnd hmem hord
  unfold removeDuplicatesStep
  by_cases hv : m.get v = true
  · -- `v` was seen before: the state is unchanged
    have hvr : v ∈ r := (hmap v).1 hv
    have hvP : v ∈ P := (hmem v).1 hvr
    have hP : ∀ x, x ∈ P ++ [v] → x ∈ P := by
      intro x hx
      rcases List.mem_append.1 hx with h1 | h1
      · exact h1
      · rw [List.mem_singleton.1 h1]; exact hvP
    simp only [hv, Bool.not_true, Bool.false_eq_true, if_false]
    refine ⟨hmap, hnd, ?_, ?_⟩
    · intro x
      exact ⟨fun hx => List.mem_append_left _ ((hmem x).1 hx), fun hx => (hmem x).2 (hP x hx)⟩
    · intro x y hx hy
      rw [firstIndex_append_of_mem (hP x hx), firstIndex_append_of_mem (hP y hy)]
      exact hord x y (hP x hx) (hP y hy)
  · -- `v` is new: it is marked and appended
    have hvr : v ∉ r := fun hr => hv ((hmap v).2 hr)
    have hvP : v ∉ P := fun hp => hvr ((hmem v).2 hp)
    have hv' : m.get v = false := by simpa using hv
    simp only [hv', Bool.not_false, if_true]
    refine ⟨?_, ?_, ?_, ?_⟩
    · intro x
      by_cases hx : x = v
      · simp [BoolMap.set, hx]
      · simp [BoolMap.set, hx, hmap x]
    · rw [List.nodup_append]
      refine ⟨hnd, List.nodup_singleton v, ?_⟩
      intro a ha hb
      rw [List.mem_singleton.1 hb] at ha
      exact hvr ha
    · intro x
      simp only [List.mem_append, List.mem_singleton, hmem x]
    · intro x y hx hy
      by_cases hxv : x = v
      · by_cases hyv : y = v
        · subst hxv; subst hyv; simp
        · have hyP : y ∈ P := by
            rcases List.mem_append.1 hy with h1 | h1
            · exact h1
            · exact absurd (List.mem_singleton.1 h1) hyv
          have hyr : y ∈ r := (hmem y).2 hyP
          subst hxv
          rw [indexOf_snoc_new hvr, indexOf_snoc_new hvP,
            firstIndex_append_of_mem hyr, firstIndex_append_of_mem hyP]
          have h1 := firstIndex_lt_length hyr
          have h2 := firstIndex_lt_length hyP
          omega
      · have hxP : x ∈ P := by
          rcases List.mem_append.1 hx with h1 | h1
          · exact h1
          · exact absurd (List.mem_singleton.1 h1) hxv
        have hxr : x ∈ r := (hmem x).2 hxP
        by_cases hyv : y = v
        · subst hyv
          rw [indexOf_snoc_new hvr, indexOf_snoc_new hvP,
            firstIndex_append_of_mem hxr, firstIndex_append_of_mem hxP]
          have h1 := firstIndex_lt_length hxr
          have h2 := firstIndex_lt_length hxP
          exact ⟨fun _ => h2, fun _ => h1⟩
        · have hyP : y ∈ P := by
            rcases List.mem_append.1 hy with h1 | h1
            · exact h1
            · exact absurd (List.mem_singleton.1 h1) hyv
          have hyr : y ∈ r := (hmem y).2 hyP
          rw [firstIndex_append_of_mem hxr, firstIndex_append_of_mem hxP,
            firstIndex_append_of_mem hyr, firstIndex_append_of_mem hyP]
          exact hord x y hxP hyP

theorem dedupInv_foldl (l P : List GoString) (st : BoolMap × List GoString)
    (h : DedupInv P st) : DedupInv (P ++ l) (l.foldl removeDuplicatesStep st) := by
  induction l generalizing P st with
  | nil => simpa using h
  | cons v l ih =>
    have := ih (P ++ [v]) (removeDuplicatesStep st v) (dedupInv_step P st v h)
    simpa using this

theorem removeDuplicates_inv (L : List GoString) :
    DedupInv L (L.foldl removeDuplicatesStep (BoolMap.make, [])) := by
  simpa using dedupInv_foldl L [] _ dedupInv_init

/-- C2: `removeDuplicates L` has no repeated elements, contains exactly the elements that
occur in `L`, and lists them in the order of their first occurrence in `L`: for distinct
elements `x`, `y` of the result, `x` precedes `y` in the result iff the first occurrence of
`x` precedes the first occurrence of `y` in `L`. -/
theorem removeDuplicates_spec (L : List GoString) :
    (removeDuplicates L).Nodup
    ∧ (∀ x, x ∈ removeDuplicates L ↔ x ∈ L)
    ∧ (∀ x y, x ∈ removeDuplicates L → y ∈ removeDuplicates L → x ≠ y →
        (List.indexOf x (removeDuplicates L) < List.indexOf y (removeDuplicates L)
          ↔ List.indexOf x L < List.indexOf y L)) := by
  obtain ⟨_, hnd, hmem, hord⟩ := removeDuplicates_inv L
  refine ⟨hnd, hmem, ?_⟩
  intro x y hx hy _
  exact hord x y ((hmem x).1 hx) ((hmem y).1 hy)

theorem removeDuplicates_spec_witness :
    removeDuplicates [str "b", str "a", str "b", str "c", str "a"] = [str "b", str "a", str "c"]
    ∧ (List.indexOf (str "a") (removeDuplicates [str "b", str "a", str "b", str "c", str "a"])
        < List.indexOf (str "c") (removeDuplicates [str "b", str "a", str "b", str "c", str "a"])
      ↔ List.indexOf (str "a") [str "b", str "a", str "b", str "c", str "a"]
        < List.indexOf (str "c") [str "b", str "a", str "b", str "c", str "a"]) :=
  ⟨by decide, (removeDuplicates_spec [str "b", str "a", str "b", str "c", str "a"]).2.2
    (str "a") (str "c") (by decide) (by decide) (by decide)⟩

/-- C10: `findAdded A B` and `findDeleted A B` are both empty if and only if `A` and `B`
contain the same set of elements, regardless of order and multiplicity; and when they do,
`notifySubdomainChanges` on the two diffs leaves the world unchanged: nothing is logged and
nothing is sent. -/
theorem no_change_iff_same_elements (A B : List GoString) :
    ((findAdded A B = [] ∧ findDeleted A B = []) ↔ (∀ s, s ∈ A ↔ s ∈ B))
    ∧ ((∀ s, s ∈ A ↔ s ∈ B) →
        ∀ (x : Oracle) (w : World),
          notifySubdomainChanges x (findAdded A B) (findDeleted A B) w = w) := by
  have hiff : (findAdded A B = [] ∧ findDeleted A B = []) ↔ (∀ s, s ∈ A ↔ s ∈ B) := by
    rw [findAdded_eq_filter, findDeleted_eq_filter]
    simp only [List.filter_eq_nil_iff, decide_eq_true_eq, not_not]
    constructor
    · rintro ⟨h1, h2⟩ s
      exact ⟨h1 s, h2 s⟩
    · intro h
      exact ⟨fun s hs => (h s).1 hs, fun s hs => (h s).2 hs⟩
  refine ⟨hiff, ?_⟩
  intro h x w
  obtain ⟨hA, hD⟩ := hiff.2 h
  rw [hA, hD]
  rfl

theorem no_change_iff_same_elements_witness :
    (∀ s, s ∈ [str "a.example.com", str "b.example.com", str "a.example.com"]
      ↔ s ∈ [str "b.example.com", str "a.example.com"])
    ∧ notifySubdomainChanges sampleOracle
        (findAdded [str "a.example.com", str "b.example.com", str "a.example.com"]
          [str "b.example.com", str "a.example.com"])
        (findDeleted [str "a.example.com", str "b.example.com", str "a.example.com"]
          [str "b.example.com", str "a.example.com"]) sampleWorld = sampleWorld :=
  have hs : ∀ s, s ∈ [str "a.example.com", str "b.example.com", str "a.example.com"]
      ↔ s ∈ [str "b.example.com", str "a.example.com"] := by
    intro s
    simp only [List.mem_cons, List.mem_singleton, List.not_mem_nil, or_false]
    constructor
    · rintro (h | h | h)
      · exact Or.inr h
      · exact Or.inl h
      · exact Or.inr h
    · rintro (h | h)
      · exact Or.inr (Or.inl h)
      · exact Or.inl h
  ⟨hs, (no_change_iff_same_elements
    [str "a.example.com", str "b.example.com", str "a.example.com"]
    [str "b.example.com", str "a.example.com"]).2 hs sampleOracle sampleWorld⟩

/-! ### Scanning -/

theorem indexByte_append_newline (l r : GoString) (h : (10 : UInt8) ∉ l) :
    IndexByte (l ++ 10 :: r) 10 = some l.length := by
  induction l with
  | nil => simp [IndexByte]
  | cons a l ih =>
    have ha : a ≠ 10 := fun e => h (by simp [e])
    have hl : (10 : UInt8) ∉ l := fun e => h (List.mem_cons_of_mem _ e)
    simp [IndexByte, ha, ih hl]

theorem indexByte_lt (b : GoString) (c : UInt8) (i : Nat) (h : IndexByte b c = some i) :
    i < b.length := by
  induction b generalizing i with
  | nil => simp [IndexByte] at h
  | cons x rest ih =>
    unfold IndexByte at h
    by_cases hx : x = c
    · simp [hx] at h; subst h; simp
    · simp only [hx, if_false, Option.map_eq_some'] at h
      obtain ⟨j, hj, rfl⟩ := h
      have := ih j hj
      simp; omega

theorem dropCR_eq_self (l : GoString) (h : l.getLast? ≠ some 13) : dropCR l = l := by
  unfold dropCR
  simp [h]

theorem scan_line (l rest tok : GoString) (e : Option GoError)
    (hnl : (10 : UInt8) ∉ l) (hcr : l.getLast? ≠ some 13) (hlen : l.length < MaxScanTokenSize) :
    Scanner.Scan ⟨l ++ 10 :: rest, tok, e⟩ = (true, ⟨rest, l, e⟩) := by
  obtain ⟨k, hk⟩ : ∃ k, MaxScanTokenSize - l.length = k + 1 :=
    ⟨MaxScanTokenSize - l.length - 1, by omega⟩
  have htake : (l ++ 10 :: rest).take MaxScanTokenSize = l ++ 10 :: rest.take k := by
    rw [List.take_append_eq_append_take, List.take_of_length_le (Nat.le_of_lt hlen), hk,
      List.take_succ_cons]
  unfold Scanner.Scan
  simp only [htake]
  unfold ScanLines
  rw [indexByte_append_newline l _ hnl]
  simp [dropCR_eq_self l hcr]

theorem scan_empty (tok : GoString) (e : Option GoError) :
    Scanner.Scan ⟨[], tok, e⟩ = (false, ⟨[], tok, e⟩) := by
  simp [Scanner.Scan, ScanLines, MaxScanTokenSize]

theorem foldl_Fprintln (L : List GoString) (acc : GoString) :
    L.foldl Fprintln acc = acc ++ L.flatMap (fun l => l ++ [10]) := by
  induction L generalizing acc with
  | nil => simp
  | cons l L ih => simp [List.foldl_cons, ih, Fprintln, List.flatMap_cons]

theorem readLinesLoop_lines (L : List GoString) (fuel : Nat) (tok : GoString)
    (e : Option GoError) (acc : List GoString)
    (h : ∀ l ∈ L, (10 : UInt8) ∉ l ∧ l.getLast? ≠ some 13 ∧ l.length < MaxScanTokenSize)
    (hfuel : L.length < fuel) :
    (readLinesLoop fuel ⟨L.flatMap (fun l => l ++ [10]), tok, e⟩ acc).1 = acc ++ L
    ∧ (readLinesLoop fuel ⟨L.flatMap (fun l => l ++ [10]), tok, e⟩ acc).2.err = e := by
  induction L generalizing fuel tok acc with
  | nil =>
    obtain ⟨f, rfl⟩ : ∃ f, fuel = f + 1 := ⟨fuel - 1, by omega⟩
    simp [readLinesLoop, scan_empty]
  | cons l L ih =>
    obtain ⟨f, rfl⟩ : ∃ f, fuel = f + 1 := ⟨fuel - 1, by omega⟩
    obtain ⟨hnl, hcr, hlen⟩ := h l (List.mem_cons_self _ _)
    have hL : ∀ l' ∈ L, (10 : UInt8) ∉ l' ∧ l'.getLast? ≠ some 13
        ∧ l'.length < MaxScanTokenSize := fun l' hl' => h l' (List.mem_cons_of_mem _ hl')
    have hin : (l :: L).flatMap (fun l => l ++ [10])
        = l ++ 10 :: L.flatMap (fun l => l ++ [10]) := by
      simp [List.flatMap_cons]
    have hf : L.length < f := by simpa using hfuel
    rw [hin]
    simp only [readLinesLoop, scan_line l _ tok e hnl hcr hlen]
    have := ih f l (acc ++ [l]) hL hf
    simpa using this

theorem length_le_flatMap_lines (L : List GoString) :
    L.length ≤ (L.flatMap (fun l => l ++ [10])).length := by
  induction L with
  | nil => simp
  | cons l L ih =>
    rw [List.flatMap_cons]
    simp only [List.length_append, List.length_cons, List.length_nil]
    omega

theorem scanFile_lines (L : List GoString)
    (h : ∀ l ∈ L, (10 : UInt8) ∉ l ∧ l.getLast? ≠ some 13 ∧ l.length < MaxScanTokenSize) :
    scanFile (L.flatMap (fun l => l ++ [10])) = (L, none) := by
  have hfuel : L.length < (L.flatMap (fun l => l ++ [10])).length + 1 :=
    Nat.lt_succ_of_le (length_le_flatMap_lines L)
  have := readLinesLoop_lines L _ [] none [] h hfuel
  unfold scanFile bufio_NewScanner
  simp only []
  rw [this.1, this.2]
  simp

theorem scanLines_advance (data tok : GoString) (atEOF : Bool) (adv : Nat)
    (h : ScanLines data atEOF = (adv, some tok)) : 0 < adv ∧ 0 < data.length := by
  unfold ScanLines at h
  cases h1 : (atEOF && data.length == 0)
  · rw [h1] at h
    simp only [Bool.false_eq_true, if_false] at h
    cases h2 : IndexByte data 10 with
    | some i =>
      rw [h2] at h
      simp only [Prod.mk.injEq] at h
      have := indexByte_lt _ _ _ h2
      omega
    | none =>
      rw [h2] at h
      cases atEOF with
      | false => simp at h
      | true =>
        simp only [if_true, Prod.mk.injEq] at h
        have hne : data.length ≠ 0 := by simpa using h1
        omega
  · rw [h1] at h
    simp at h

theorem scan_consumes (s s' : Scanner) (h : s.Scan = (true, s')) :
    s'.input.length < s.input.length := by
  unfold Scanner.Scan at h
  simp only [] at h
  rcases hsl : ScanLines (s.input.take MaxScanTokenSize)
      (decide (s.input.length < MaxScanTokenSize)) with ⟨adv, tok⟩
  rw [hsl] at h
  cases tok with
  | none =>
    simp only [] at h
    split at h <;> simp at h
  | some tok =>
    simp only [Prod.mk.injEq, true_and] at h
    obtain ⟨h1, h2⟩ := scanLines_advance _ _ _ _ hsl
    rw [← h]
    simp only [List.length_take, List.length_drop] at h2 ⊢
    omega

theorem readLinesLoop_fuel (fuel₁ fuel₂ : Nat) (s : Scanner) (acc : List GoString)
    (h₁ : s.input.length < fuel₁) (h₂ : s.input.length < fuel₂) :
    readLinesLoop fuel₁ s acc = readLinesLoop fuel₂ s acc := by
  induction fuel₁ generalizing fuel₂ s acc with
  | zero => omega
  | succ f₁ ih =>
    obtain ⟨f₂, rfl⟩ : ∃ f, fuel₂ = f + 1 := ⟨fuel₂ - 1, by omega⟩
    unfold readLinesLoop
    rcases hs : s.Scan with ⟨b, s'⟩
    cases b with
    | false => rfl
    | true =>
      have := scan_consumes s s' hs
      exact ih f₂ s' _ (by omega) (by omega)

theorem scan_false_again (s s' : Scanner) (h : s.Scan = (false, s')) : s'.Scan.1 = false := by
  unfold Scanner.Scan at h
  simp only [] at h
  rcases hsl : ScanLines (s.input.take MaxScanTokenSize)
      (decide (s.input.length < MaxScanTokenSize)) with ⟨adv, tok⟩
  rw [hsl] at h
  cases tok with
  | some tok => simp at h
  | none =>
    simp only [] at h
    by_cases hEOF : s.input.length < MaxScanTokenSize
    · simp only [hEOF, decide_True, if_true, Prod.mk.injEq, true_and] at h hsl
      subst h
      unfold Scanner.Scan
      simp only [hsl, hEOF, decide_True, if_true]
    · simp only [hEOF, decide_False, Bool.false_eq_true, if_false, Prod.mk.injEq, true_and]
        at h hsl
      subst h
      unfold Scanner.Scan
      simp only [hsl, hEOF, decide_False, Bool.false_eq_true, if_false]

/-- With more fuel than unconsumed bytes the loop of `readLines` ends because `Scan` returned
false, never because the bound was reached. -/
theorem readLinesLoop_ends (fuel : Nat) (s : Scanner) (acc : List GoString)
    (h : s.input.length < fuel) : (readLinesLoop fuel s acc).2.Scan.1 = false := by
  induction fuel generalizing s acc with
  | zero => omega
  | succ f ih =>
    unfold readLinesLoop
    rcases hs : s.Scan with ⟨b, s'⟩
    cases b with
    | false => exact scan_false_again s s' hs
    | true =>
      have := scan_consumes s s' hs
      exact ih s' _ (by omega)

theorem scan_tooLong (s : Scanner) (hlen : MaxScanTokenSize ≤ s.input.length)
    (hnl : IndexByte (s.input.take MaxScanTokenSize) 10 = none) :
    s.Scan = (false, ⟨s.input, s.token, some .tooLong⟩) := by
  have h1 : ¬ s.input.length < MaxScanTokenSize := by omega
  unfold Scanner.Scan ScanLines
  simp [h1, hnl]

theorem indexByte_replicate (n : Nat) (r : GoString) :
    IndexByte ((List.replicate n 97 ++ r).take n) 10 = none := by
  induction n with
  | zero => simp [IndexByte]
  | succ n ih =>
    rw [List.replicate_succ, List.cons_append, List.take_succ_cons]
    unfold IndexByte
    rw [ih]
    decide

theorem writeLines_ok (L : List GoString) (path : GoString) (fs : FS)
    (hb : fs.blocked path = none) :
    writeLines L path fs
      = (none, (fs.write path []).write path (L.flatMap (fun l => l ++ [10]))) := by
  simp [writeLines, os_Create, hb, foldl_Fprintln]

theorem writeLines_blocked (L : List GoString) (path cause : GoString) (fs : FS)
    (hb : fs.blocked path = some cause) :
    writeLines L path fs = (some (.pathError (str "open") path cause), fs) := by
  simp [writeLines, os_Create, hb]

theorem writeLines_file (L : List GoString) (path : GoString) (fs : FS)
    (hb : fs.blocked path = none) :
    (writeLines L path fs).2.files path = some (L.flatMap (fun l => l ++ [10])) := by
  rw [writeLines_ok L path fs hb]
  simp [FS.write]

theorem readLines_long_line_aux (n : Nat) (hn : MaxScanTokenSize = n) (path : GoString)
    (fs : FS) (hb : fs.blocked path = none) :
    readLines (writeLines [List.replicate n 97] path fs).2 path = ([], some .tooLong) := by
  have hscan : Scanner.Scan ⟨List.replicate n 97 ++ [10], [], none⟩
      = (false, ⟨List.replicate n 97 ++ [10], [], some .tooLong⟩) := by
    apply scan_tooLong
    · rw [hn]
      simp only [List.length_append, List.length_replicate]
      omega
    · rw [hn]
      exact indexByte_replicate n [10]
  unfold readLines os_Open
  rw [writeLines_file _ _ _ hb]
  simp only [List.flatMap_cons, List.flatMap_nil, List.append_nil]
  unfold scanFile bufio_NewScanner
  simp only [readLinesLoop, hscan]

/-- A line of `MaxScanTokenSize` bytes does not survive: `readLines` reports `ErrTooLong` and
returns no line. -/
theorem readLines_long_line (path : GoString) (fs : FS) (hb : fs.blocked path = none) :
    readLines (writeLines [List.replicate MaxScanTokenSize 97] path fs).2 path
      = ([], some .tooLong) :=
  readLines_long_line_aux MaxScanTokenSize rfl path fs hb

/-- A path that cannot be created does not survive either: `writeLines` returns the error of
`os.Create`, and `readLines` finds no file. -/
theorem writeLines_missing_directory :
    (writeLines [str "a"] (str "output.a/b.txt") missingDirWorld.fs).1
      = some (.pathError (str "open") (str "output.a/b.txt") ENOENT)
    ∧ readLines (writeLines [str "a"] (str "output.a/b.txt") missingDirWorld.fs).2
        (str "output.a/b.txt")
      = ([], some (.pathError (str "open") (str "output.a/b.txt") ENOENT)) := by
  decide

/-- C4 (as stated, refuted): the one-element list `["a\r"]` is a list of non-empty,
newline-free strings, `writeLines` stores it without error, and `readLines` then returns
`["a"]`, not the list that was written. -/
theorem roundtrip_loses_trailing_cr :
    (∀ l ∈ [str "a\r"], l ≠ [] ∧ (10 : UInt8) ∉ l)
    ∧ (writeLines [str "a\r"] (str "snapshot.txt") emptyFS).1 = none
    ∧ readLines (writeLines [str "a\r"] (str "snapshot.txt") emptyFS).2
        (str "snapshot.txt") = ([str "a"], none)
    ∧ [str "a"] ≠ [str "a\r"] := by
  decide

/-- C4 (amended): for every list `L` of non-empty strings that contain no newline, do not
end in a carriage return and are shorter than `MaxScanTokenSize` (65536) bytes, and every
path at which a file can be created, `writeLines` to that path returns no error and
`readLines` of that path then returns exactly `L` with no error. -/
theorem writeLines_readLines_roundtrip (L : List GoString) (path : GoString) (fs : FS)
    (hpath : fs.blocked path = none)
    (h : ∀ l ∈ L, l ≠ [] ∧ (10 : UInt8) ∉ l ∧ l.getLast? ≠ some 13
      ∧ l.length < MaxScanTokenSize) :
    (writeLines L path fs).1 = none
    ∧ readLines (writeLines L path fs).2 path = (L, none) := by
  refine ⟨by rw [writeLines_ok L path fs hpath], ?_⟩
  unfold readLines os_Open
  rw [writeLines_file L path fs hpath]
  exact scanFile_lines L (fun l hl => (h l hl).2)

theorem writeLines_readLines_roundtrip_witness :
    emptyFS.blocked (str "snapshot.txt") = none
    ∧ (∀ l ∈ [str "b.example.com", str "c.example.com"],
      l ≠ [] ∧ (10 : UInt8) ∉ l ∧ l.getLast? ≠ some 13 ∧ l.length < MaxScanTokenSize)
    ∧ (writeLines [str "b.example.com", str "c.example.com"] (str "snapshot.txt")
        emptyFS).1 = none
    ∧ readLines (writeLines [str "b.example.com", str "c.example.com"] (str "snapshot.txt")
        emptyFS).2 (str "snapshot.txt")
      = ([str "b.example.com", str "c.example.com"], none) :=
  ⟨rfl, by decide, writeLines_readLines_roundtrip [str "b.example.com", str "c.example.com"]
    (str "snapshot.txt") emptyFS rfl (by decide)⟩

/-! ### Notification -/

theorem posts_append (t₁ t₂ : List Event) : posts (t₁ ++ t₂) = posts t₁ ++ posts t₂ := by
  simp [posts]

theorem log_Println_fs (line : GoString) (w : World) : (log_Println line w).fs = w.fs := rfl

theorem log_Println_env (line : GoString) (w : World) : (log_Println line w).env = w.env := rfl

theorem log_Println_posts (line : GoString) (w : World) :
    posts (log_Println line w).trace = posts w.trace := by
  simp [log_Println, posts, Event.isPost]

theorem send_fs_env (x : Oracle) (m : GoString) (w : World) :
    (sendDiscordNotification x m w).fs = w.fs ∧ (sendDiscordNotification x m w).env = w.env := by
  unfold sendDiscordNotification
  simp only []
  split
  · exact ⟨rfl, rfl⟩
  · split
    · exact ⟨rfl, rfl⟩
    · unfold http_Post
      split
      · rename_i heq
        simp only [Prod.mk.injEq] at heq
        rw [← heq.2]
        exact ⟨rfl, rfl⟩
      · rename_i heq
        simp only [Prod.mk.injEq] at heq
        rw [← heq.2]
        split <;> exact ⟨rfl, rfl⟩

theorem send_unset (x : Oracle) (m : GoString) (w : World)
    (h : os_Getenv w (str "DISCORD_TOKEN") = []) :
    sendDiscordNotification x m w = log_Println
      (str "DISCORD_TOKEN environment variable not set. Skipping notification.") w := by
  unfold sendDiscordNotification
  simp only [h, if_true]

theorem send_posts (x : Oracle) (m url : GoString) (enc : GoString → GoString) (w : World)
    (hurl : w.env (str "DISCORD_TOKEN") = some url) (hne : url ≠ [])
    (henc : ∀ m, x.jsonMarshal m = .ok (enc m)) :
    posts (sendDiscordNotification x m w).trace
      = posts w.trace ++ [Event.httpPost url (str "application/json") (enc m)] := by
  have hget : os_Getenv w (str "DISCORD_TOKEN") = url := by simp [os_Getenv, hurl]
  unfold sendDiscordNotification
  simp only [hget, hne, if_false, henc, http_Post]
  split
  · rename_i heq
    simp only [Prod.mk.injEq] at heq
    rw [log_Println_posts, ← heq.2]
    simp [posts, Event.isPost]
  · rename_i heq
    simp only [Prod.mk.injEq] at heq
    split
    · rw [log_Println_posts, ← heq.2]
      simp [posts, Event.isPost]
    · rw [← heq.2]
      simp [posts, Event.isPost]

theorem notifyLoop_fs_env (x : Oracle) (pre : GoString) (l : List GoString) (w : World) :
    (l.foldl (fun w sub => sendDiscordNotification x (pre ++ sub) (log_Println sub w)) w).fs
      = w.fs
    ∧ (l.foldl (fun w sub => sendDiscordNotification x (pre ++ sub) (log_Println sub w)) w).env
      = w.env := by
  induction l generalizing w with
  | nil => exact ⟨rfl, rfl⟩
  | cons a l ih =>
    rw [List.foldl_cons]
    have h1 := ih (sendDiscordNotification x (pre ++ a) (log_Println a w))
    have h2 := send_fs_env x (pre ++ a) (log_Println a w)
    exact ⟨h1.1.trans h2.1, h1.2.trans h2.2⟩

theorem notifyLoop_posts (x : Oracle) (pre url : GoString) (enc : GoString → GoString)
    (l : List GoString) (w : World)
    (hurl : w.env (str "DISCORD_TOKEN") = some url) (hne : url ≠ [])
    (henc : ∀ m, x.jsonMarshal m = .ok (enc m)) :
    posts (l.foldl (fun w sub => sendDiscordNotification x (pre ++ sub) (log_Println sub w))
        w).trace
      = posts w.trace
        ++ l.map (fun sub => Event.httpPost url (str "application/json") (enc (pre ++ sub))) := by
  induction l generalizing w with
  | nil => simp
  | cons a l ih =>
    rw [List.foldl_cons]
    have henv : (sendDiscordNotification x (pre ++ a) (log_Println a w)).env
        (str "DISCORD_TOKEN") = some url := by
      rw [(send_fs_env x (pre ++ a) (log_Println a w)).2]
      exact hurl
    rw [ih _ henv, send_posts x (pre ++ a) url enc (log_Println a w) hurl hne henc,
      log_Println_posts]
    simp

theorem notifyBlock_fs_env (x : Oracle) (pre hdr : GoString) (l : List GoString)
    (w : World) :
    (if l.length > 0 then
        l.foldl (fun w sub => sendDiscordNotification x (pre ++ sub) (log_Println sub w))
          (log_Println hdr w)
      else w).fs = w.fs
    ∧ (if l.length > 0 then
        l.foldl (fun w sub => sendDiscordNotification x (pre ++ sub) (log_Println sub w))
          (log_Println hdr w)
      else w).env = w.env := by
  split
  · exact notifyLoop_fs_env x pre l (log_Println hdr w)
  · exact ⟨rfl, rfl⟩

theorem notifyBlock_posts (x : Oracle) (pre hdr url : GoString) (enc : GoString → GoString)
    (l : List GoString) (w : World)
    (hurl : w.env (str "DISCORD_TOKEN") = some url) (hne : url ≠ [])
    (henc : ∀ m, x.jsonMarshal m = .ok (enc m)) :
    posts (if l.length > 0 then
        l.foldl (fun w sub => sendDiscordNotification x (pre ++ sub) (log_Println sub w))
          (log_Println hdr w)
      else w).trace
      = posts w.trace
        ++ l.map (fun sub => Event.httpPost url (str "application/json") (enc (pre ++ sub))) := by
  split
  · rw [notifyLoop_posts x pre url enc l (log_Println hdr w) hurl hne henc, log_Println_posts]
  · have : l = [] := List.length_eq_zero.1 (by omega)
    simp [this]

theorem notifySubdomainChanges_fs_env (x : Oracle) (added deleted : List GoString)
    (w : World) :
    (notifySubdomainChanges x added deleted w).fs = w.fs
    ∧ (notifySubdomainChanges x added deleted w).env = w.env := by
  unfold notifySubdomainChanges
  simp only []
  have h1 := notifyBlock_fs_env x (str "Subdomain Added: ") (str "Subdomains Added:") added w
  have h2 := notifyBlock_fs_env x (str "Subdomain Deleted: ") (str "Subdomains Deleted:")
    deleted (if added.length > 0 then
        added.foldl (fun w sub => sendDiscordNotification x (str "Subdomain Added: " ++ sub)
          (log_Println sub w)) (log_Println (str "Subdomains Added:") w)
      else w)
  exact ⟨h2.1.trans h1.1, h2.2.trans h1.2⟩

theorem notifyHttpxChanges_fs_env (x : Oracle) (changes : List GoString) (w : World) :
    (notifyHttpxChanges x changes w).fs = w.fs
    ∧ (notifyHttpxChanges x changes w).env = w.env := by
  unfold notifyHttpxChanges
  exact notifyBlock_fs_env x (str "Service change: ") (str "Service changes:") changes w

theorem notifySubdomainChanges_posts (x : Oracle) (added deleted : List GoString)
    (url : GoString) (enc : GoString → GoString) (w : World) (hne : url ≠ [])
    (henc : ∀ m, x.jsonMarshal m = .ok (enc m))
    (hurl : w.env (str "DISCORD_TOKEN") = some url) :
    posts (notifySubdomainChanges x added deleted w).trace
      = posts w.trace
        ++ (added.map (fun sub => Event.httpPost url (str "application/json")
              (enc (str "Subdomain Added: " ++ sub)))
          ++ deleted.map (fun sub => Event.httpPost url (str "application/json")
              (enc (str "Subdomain Deleted: " ++ sub)))) := by
  have henv := (notifyBlock_fs_env x (str "Subdomain Added: ") (str "Subdomains Added:")
    added w).2
  unfold notifySubdomainChanges
  simp only []
  rw [notifyBlock_posts x (str "Subdomain Deleted: ") (str "Subdomains Deleted:") url enc
      deleted _ (by rw [henv]; exact hurl) hne henc,
    notifyBlock_posts x (str "Subdomain Added: ") (str "Subdomains Added:") url enc
      added w hurl hne henc, List.append_assoc]

theorem notifyHttpxChanges_posts (x : Oracle) (changes : List GoString)
    (url : GoString) (enc : GoString → GoString) (w : World) (hne : url ≠ [])
    (henc : ∀ m, x.jsonMarshal m = .ok (enc m))
    (hurl : w.env (str "DISCORD_TOKEN") = some url) :
    posts (notifyHttpxChanges x changes w).trace
      = posts w.trace
        ++ changes.map (fun change => Event.httpPost url (str "application/json")
              (enc (str "Service change: " ++ change))) := by
  unfold notifyHttpxChanges
  exact notifyBlock_posts x (str "Service change: ") (str "Service changes:") url enc
    changes w hurl hne henc

/-- C6: with a webhook URL configured (and `json.Marshal` encoding every payload, as it does
for a struct with one string field), the network calls made by
`notifySubdomainChanges added deleted` are exactly one `http.Post` per item of `added`, in
order, carrying "Subdomain Added: " followed by the item, and then one per item of `deleted`,
in order, carrying "Subdomain Deleted: " followed by the item: `len(added) + len(deleted)`
sends, none batched, none other. -/
theorem notifySubdomainChanges_sends (x : Oracle) (added deleted : List GoString)
    (url : GoString) (enc : GoString → GoString) (w : World)
    (hurl : w.env (str "DISCORD_TOKEN") = some url) (hne : url ≠ [])
    (henc : ∀ m, x.jsonMarshal m = .ok (enc m)) :
    posts (notifySubdomainChanges x added deleted w).trace
      = posts w.trace
        ++ (added.map (fun sub => Event.httpPost url (str "application/json")
              (enc (str "Subdomain Added: " ++ sub)))
          ++ deleted.map (fun sub => Event.httpPost url (str "application/json")
              (enc (str "Subdomain Deleted: " ++ sub))))
    ∧ (posts (notifySubdomainChanges x added deleted w).trace).length
      = (posts w.trace).length + (added.length + deleted.length) := by
  have key := notifySubdomainChanges_posts x added deleted url enc w hne henc hurl
  refine ⟨key, ?_⟩
  rw [key]
  simp

theorem notifySubdomainChanges_sends_witness :
    posts (notifySubdomainChanges sampleOracle [str "c.example.com"] [str "a.example.com"]
        sampleWorld).trace
      = [Event.httpPost (str "https://hook.example/1") (str "application/json")
          (str "\"Subdomain Added: c.example.com\""),
        Event.httpPost (str "https://hook.example/1") (str "application/json")
          (str "\"Subdomain Deleted: a.example.com\"")]
    ∧ (posts (notifySubdomainChanges sampleOracle [str "c.example.com"] [str "a.example.com"]
        sampleWorld).trace).length = 2 :=
  notifySubdomainChanges_sends sampleOracle [str "c.example.com"] [str "a.example.com"]
    (str "https://hook.example/1") (fun content => str "\"" ++ content ++ str "\"")
    sampleWorld rfl (by decide) (fun _ => rfl)

/-- C7: when the webhook environment variable is unset or empty, `sendDiscordNotification`
returns normally, its only effect is one log line, and no `http.Post` is added to the
trace. -/
theorem sendDiscordNotification_unconfigured (x : Oracle) (message : GoString) (w : World)
    (h : w.env (str "DISCORD_TOKEN") = none ∨ w.env (str "DISCORD_TOKEN") = some []) :
    sendDiscordNotification x message w
      = { w with trace := w.trace ++ [Event.log
          (str "DISCORD_TOKEN environment variable not set. Skipping notification.")] }
    ∧ posts (sendDiscordNotification x message w).trace = posts w.trace := by
  have hget : os_Getenv w (str "DISCORD_TOKEN") = [] := by
    rcases h with h | h <;> simp [os_Getenv, h]
  rw [send_unset x message w hget]
  exact ⟨rfl, log_Println_posts _ w⟩

theorem sendDiscordNotification_unconfigured_witness :
    (emptyWorld.env (str "DISCORD_TOKEN") = none
      ∨ emptyWorld.env (str "DISCORD_TOKEN") = some [])
    ∧ (sendDiscordNotification sampleOracle (str "Subdomain Added: x.example.com")
        emptyWorld).trace
      = [Event.log (str "DISCORD_TOKEN environment variable not set. Skipping notification.")]
    ∧ posts (sendDiscordNotification sampleOracle (str "Subdomain Added: x.example.com")
        emptyWorld).trace = [] :=
  have h := sendDiscordNotification_unconfigured sampleOracle
    (str "Subdomain Added: x.example.com") emptyWorld (Or.inl rfl)
  ⟨Or.inl rfl, by rw [h.1]; rfl, by rw [h.2]; rfl⟩

/-! ### The orchestrator -/

theorem append_ne_of_ne (p q s t : GoString) (hlen : p.length = q.length) (hne : p ≠ q) :
    p ++ s ≠ q ++ t := fun h => hne (List.append_inj h hlen).1

theorem outputFile_ne_prevOutputFile (d : GoString) :
    str "output." ++ d ++ str ".txt" ≠ str "prev_output." ++ d ++ str ".txt" := by
  have h : str "prev_output." = str "prev_ou" ++ str "tput." := by decide
  rw [h, List.append_assoc, List.append_assoc, List.append_assoc]
  exact append_ne_of_ne _ _ _ _ (by decide) (by decide)

theorem outputFile_ne_httpx (d : GoString) :
    str "output." ++ d ++ str ".txt" ≠ str "httpx_res.txt" := by
  have h : str "httpx_res.txt" = str "httpx_r" ++ str "es.txt" := by decide
  rw [h, List.append_assoc]
  exact append_ne_of_ne _ _ _ _ (by decide) (by decide)

theorem outputFile_ne_prevHttpx (d : GoString) :
    str "output." ++ d ++ str ".txt" ≠ str "prev_httpx_res.txt" := by
  have h : str "prev_httpx_res.txt" = str "prev_ht" ++ str "tpx_res.txt" := by decide
  rw [h, List.append_assoc]
  exact append_ne_of_ne _ _ _ _ (by decide) (by decide)

theorem prevOutputFile_ne_httpx (d : GoString) :
    str "prev_output." ++ d ++ str ".txt" ≠ str "httpx_res.txt" := by
  have h : str "httpx_res.txt" = str "httpx_res.tx" ++ str "t" := by decide
  rw [h, List.append_assoc]
  exact append_ne_of_ne _ _ _ _ (by decide) (by decide)

theorem prevOutputFile_ne_prevHttpx (d : GoString) :
    str "prev_output." ++ d ++ str ".txt" ≠ str "prev_httpx_res.txt" := by
  have h : str "prev_httpx_res.txt" = str "prev_httpx_r" ++ str "es.txt" := by decide
  rw [h, List.append_assoc]
  exact append_ne_of_ne _ _ _ _ (by decide) (by decide)

theorem httpx_ne_prevHttpx : str "httpx_res.txt" ≠ str "prev_httpx_res.txt" := by decide

theorem outputFile_ne_temp (d : GoString) (i : Nat) :
    str "output." ++ d ++ str ".txt" ≠ str "output_" ++ itoa i ++ str ".txt" := by
  rw [List.append_assoc, List.append_assoc]
  exact append_ne_of_ne _ _ _ _ (by decide) (by decide)

theorem prevOutputFile_ne_temp (d : GoString) (i : Nat) :
    str "prev_output." ++ d ++ str ".txt" ≠ str "output_" ++ itoa i ++ str ".txt" := by
  have h : str "prev_output." = str "prev_ou" ++ str "tput." := by decide
  rw [h]
  simp only [List.append_assoc]
  exact append_ne_of_ne _ _ _ _ (by decide) (by decide)

theorem FS.write_same (fs : FS) (p c : GoString) : (fs.write p c).files p = some c := by
  simp [FS.write]

theorem FS.write_other (fs : FS) (p q c : GoString) (h : q ≠ p) :
    (fs.write p c).files q = fs.files q := by
  simp [FS.write, h]

theorem FS.unlink_same (fs : FS) (p : GoString) : (fs.unlink p).files p = none := by
  simp [FS.unlink]

theorem FS.unlink_other (fs : FS) (p q : GoString) (h : q ≠ p) :
    (fs.unlink p).files q = fs.files q := by
  simp [FS.unlink, h]

theorem FS.put_same (fs : FS) (p : GoString) (o : Option GoString) :
    (fs.put p o).files p = o := by
  simp [FS.put]

theorem FS.put_other (fs : FS) (p q : GoString) (o : Option GoString) (h : q ≠ p) :
    (fs.put p o).files q = fs.files q := by
  simp [FS.put, h]

theorem readLines_congr (fs fs' : FS) (p : GoString) (h : fs.files p = fs'.files p) :
    readLines fs p = readLines fs' p := by
  unfold readLines os_Open
  rw [h]

theorem readLines_absent (fs : FS) (p : GoString) (h : fs.files p = none) :
    readLines fs p = ([], some (.pathError (str "open") p ENOENT)) := by
  unfold readLines os_Open
  rw [h]

theorem readLines_present (fs : FS) (p b : GoString) (h : fs.files p = some b) :
    readLines fs p = scanFile b := by
  unfold readLines os_Open
  rw [h]

theorem readLines_put (fs : FS) (p : GoString) (out : Option GoString) :
    (readLines (fs.put p out) p).1 = linesLeft out := by
  cases out with
  | none => rw [readLines_absent _ _ (FS.put_same fs p none)]; rfl
  | some content => rw [readLines_present _ _ content (FS.put_same fs p _)]; rfl

theorem remove_frame (fs : FS) (p : GoString) :
    (orKeep (os_Remove fs p) fs).blocked = fs.blocked
    ∧ ∀ q, q ≠ p → (orKeep (os_Remove fs p) fs).files q = fs.files q := by
  unfold os_Remove
  cases h : fs.files p with
  | none => exact ⟨rfl, fun _ _ => rfl⟩
  | some c => exact ⟨rfl, fun q hq => FS.unlink_other fs p q hq⟩

theorem writeLines_frame (L : List GoString) (p : GoString) (fs : FS) :
    (writeLines L p fs).2.blocked = fs.blocked
    ∧ ∀ q, q ≠ p → (writeLines L p fs).2.files q = fs.files q := by
  cases hb : fs.blocked p with
  | none =>
    rw [writeLines_ok L p fs hb]
    refine ⟨rfl, fun q hq => ?_⟩
    rw [FS.write_other _ _ _ _ hq, FS.write_other _ _ _ _ hq]
  | some cause =>
    rw [writeLines_blocked L p cause fs hb]
    exact ⟨rfl, fun _ _ => rfl⟩

theorem writeLines_congr (L : List GoString) (p : GoString) (fs fs' : FS)
    (hb : fs.blocked p = fs'.blocked p) (hf : fs.files p = fs'.files p) :
    (writeLines L p fs).2.files p = (writeLines L p fs').2.files p := by
  cases hb' : fs'.blocked p with
  | none =>
    rw [writeLines_file L p fs (hb.trans hb'), writeLines_file L p fs' hb']
  | some cause =>
    rw [writeLines_blocked L p cause fs (hb.trans hb'), writeLines_blocked L p cause fs' hb']
    exact hf

theorem enumerateLoop_step (x : Oracle) (wl d : GoString) (out : Option GoString) (n i : Nat)
    (allSubs : List GoString) (w : World)
    (h : x.shuffledns wl d (str "output_" ++ itoa i ++ str ".txt") = .ok out) :
    ∃ w', enumerateLoop x wl d (n + 1) i allSubs w
        = enumerateLoop x wl d n (i + 1) (allSubs ++ linesLeft out) w'
      ∧ w'.fs.blocked = w.fs.blocked
      ∧ (∀ q, q ≠ str "output_" ++ itoa i ++ str ".txt" → w'.fs.files q = w.fs.files q)
      ∧ w'.env = w.env
      ∧ posts w'.trace = posts w.trace := by
  rw [enumerateLoop]
  simp only [runShuffledns, h, log_Println_fs, readLines_put]
  refine ⟨_, rfl, ?_, ?_, rfl, ?_⟩
  · exact (remove_frame _ _).1
  · intro q hq
    rw [(remove_frame _ _).2 q hq, FS.put_other _ _ _ _ hq]
  · simp only [log_Println_posts]

theorem enumerateLoop_three (x : Oracle) (wl d : GoString) (o0 o1 o2 : Option GoString)
    (w : World)
    (h0 : x.shuffledns wl d (str "output_0.txt") = .ok o0)
    (h1 : x.shuffledns wl d (str "output_1.txt") = .ok o1)
    (h2 : x.shuffledns wl d (str "output_2.txt") = .ok o2) :
    ∃ w', enumerateLoop x wl d 3 0 [] w
        = .done (linesLeft o0 ++ linesLeft o1 ++ linesLeft o2) w'
      ∧ w'.fs.blocked = w.fs.blocked
      ∧ (∀ q, (∀ i, q ≠ str "output_" ++ itoa i ++ str ".txt") → w'.fs.files q = w.fs.files q)
      ∧ w'.env = w.env
      ∧ posts w'.trace = posts w.trace := by
  have e0 : str "output_" ++ itoa 0 ++ str ".txt" = str "output_0.txt" := by decide
  have e1 : str "output_" ++ itoa 1 ++ str ".txt" = str "output_1.txt" := by decide
  have e2 : str "output_" ++ itoa 2 ++ str ".txt" = str "output_2.txt" := by decide
  obtain ⟨w1, hw1, b1, f1, v1, t1⟩ :=
    enumerateLoop_step x wl d o0 2 0 [] w (by rw [e0]; exact h0)
  obtain ⟨w2, hw2, b2, f2, v2, t2⟩ :=
    enumerateLoop_step x wl d o1 1 1 ([] ++ linesLeft o0) w1 (by rw [e1]; exact h1)
  obtain ⟨w3, hw3, b3, f3, v3, t3⟩ := enumerateLoop_step x wl d o2 0 2
    ([] ++ linesLeft o0 ++ linesLeft o1) w2 (by rw [e2]; exact h2)
  refine ⟨w3, ?_, b3.trans (b2.trans b1), ?_, v3.trans (v2.trans v1), t3.trans (t2.trans t1)⟩
  · rw [hw1, hw2, hw3, enumerateLoop]
    simp
  · intro q hq
    rw [f3 q (hq 2), f2 q (hq 1), f1 q (hq 0)]

theorem notifySubdomainChanges_fs (x : Oracle) (added deleted : List GoString) (w : World) :
    (notifySubdomainChanges x added deleted w).fs = w.fs :=
  (notifySubdomainChanges_fs_env x added deleted w).1

theorem notifyHttpxChanges_fs (x : Oracle) (changes : List GoString) (w : World) :
    (notifyHttpxChanges x changes w).fs = w.fs :=
  (notifyHttpxChanges_fs_env x changes w).1

theorem notifySubdomainChanges_env (x : Oracle) (added deleted : List GoString) (w : World) :
    (notifySubdomainChanges x added deleted w).env = w.env :=
  (notifySubdomainChanges_fs_env x added deleted w).2

theorem notifyHttpxChanges_env (x : Oracle) (changes : List GoString) (w : World) :
    (notifyHttpxChanges x changes w).env = w.env :=
  (notifyHttpxChanges_fs_env x changes w).2


theorem rename_ok (fs : FS) (old new content : GoString)
    (hf : fs.files old = some content) (hb : fs.blocked new = none) :
    orKeep (os_Rename fs old new) fs = (fs.unlink old).write new content := by
  simp [os_Rename, hf, hb, orKeep]

theorem runHttpx_ok (x : Oracle) (i o content hx : GoString) (w : World)
    (hsh : ∀ fs : FS, fs.files i = some content →
      x.sh (httpxCommand i o) fs = (none, fs.write o hx))
    (hfile : w.fs.files i = some content) :
    runHttpx x i o w = .done () (log_Println (str "httpx command executed successfully")
      { w with fs := w.fs.write o hx }) := by
  unfold runHttpx
  rw [hsh w.fs hfile]

/-- C8 (amended): for every run of `main` in which the three enumerator runs succeed, the
system lets `output.<domain>.txt` be created and lets `prev_output.<domain>.txt` and
`prev_httpx_res.txt` be renamed onto, and the shell pipeline, run when
`prev_output.<domain>.txt` holds the current subdomain output, exits with status 0 having
changed `httpx_res.txt` (to its output `hx`) and no other file: whatever the files held
before, the run completes and then `prev_output.<domain>.txt` holds exactly the current
subdomain output (the deduplicated concatenation of the lines of the three enumerator result
files, one per line), `prev_httpx_res.txt` holds exactly `hx`, and `output.<domain>.txt` and
`httpx_res.txt` no longer exist. -/
theorem main_rotates_snapshots (x : Oracle) (prog wordlistFile websiteAddress : GoString)
    (rest : List GoString) (w : World) (o0 o1 o2 : Option GoString) (hx : GoString)
    (h0 : x.shuffledns wordlistFile websiteAddress (str "output_0.txt") = .ok o0)
    (h1 : x.shuffledns wordlistFile websiteAddress (str "output_1.txt") = .ok o1)
    (h2 : x.shuffledns wordlistFile websiteAddress (str "output_2.txt") = .ok o2)
    (hout : w.fs.blocked (str "output." ++ websiteAddress ++ str ".txt") = none)
    (hprev : w.fs.blocked (str "prev_output." ++ websiteAddress ++ str ".txt") = none)
    (hprevHttpx : w.fs.blocked (str "prev_httpx_res.txt") = none)
    (hsh : ∀ fs : FS,
      fs.files (str "prev_output." ++ websiteAddress ++ str ".txt")
        = some ((removeDuplicates (linesLeft o0 ++ linesLeft o1 ++ linesLeft o2)).flatMap
            (fun l => l ++ [10])) →
      x.sh (httpxCommand (str "prev_output." ++ websiteAddress ++ str ".txt")
          (str "httpx_res.txt")) fs
        = (none, fs.write (str "httpx_res.txt") hx)) :
    ∃ w', main x (prog :: wordlistFile :: websiteAddress :: rest) w = .done () w'
      ∧ w'.fs.files (str "prev_output." ++ websiteAddress ++ str ".txt")
        = some ((removeDuplicates (linesLeft o0 ++ linesLeft o1 ++ linesLeft o2)).flatMap
            (fun l => l ++ [10]))
      ∧ w'.fs.files (str "prev_httpx_res.txt") = some hx
      ∧ w'.fs.files (str "output." ++ websiteAddress ++ str ".txt") = none
      ∧ w'.fs.files (str "httpx_res.txt") = none := by
  obtain ⟨w3, hw3, hb3, -, -, -⟩ := enumerateLoop_three x wordlistFile websiteAddress o0 o1 o2
    (log_Println (str "Starting subdomain enumeration...") w) h0 h1 h2
  have n1 := outputFile_ne_prevOutputFile websiteAddress
  have n2 := outputFile_ne_httpx websiteAddress
  have n3 := outputFile_ne_prevHttpx websiteAddress
  have n4 := prevOutputFile_ne_httpx websiteAddress
  have n5 := prevOutputFile_ne_prevHttpx websiteAddress
  have n6 := httpx_ne_prevHttpx
  have hb3' : w3.fs.blocked = w.fs.blocked := hb3
  unfold main
  simp only [hw3, log_Println_fs, notifySubdomainChanges_fs]
  rw [writeLines_ok _ _ _ (by rw [hb3']; exact hout)]
  rw [rename_ok _ _ _ _ (FS.write_same _ _ _) (by show w3.fs.blocked _ = none; rw [hb3']; exact hprev)]
  rw [runHttpx_ok x _ _ _ hx _ hsh (FS.write_same _ _ _)]
  simp only [log_Println_fs, notifyHttpxChanges_fs]
  rw [rename_ok _ _ _ _ (FS.write_same _ _ _) (by show w3.fs.blocked _ = none; rw [hb3']; exact hprevHttpx)]
  refine ⟨_, rfl, ?_, ?_, ?_, ?_⟩
  all_goals simp only [log_Println_fs]
  · rw [FS.write_other _ _ _ _ n5, FS.unlink_other _ _ _ n4, FS.write_other _ _ _ _ n4,
      FS.write_same]
  · rw [FS.write_same]
  · rw [FS.write_other _ _ _ _ n3, FS.unlink_other _ _ _ n2, FS.write_other _ _ _ _ n2,
      FS.write_other _ _ _ _ n1, FS.unlink_same]
  · rw [FS.write_other _ _ _ _ n6, FS.unlink_same]

theorem main_rotates_snapshots_witness :
    ∃ w', main sampleOracle [str "monitor", str "words.txt", str "example.com"] sampleWorld
        = .done () w'
      ∧ w'.fs.files (str "prev_output." ++ str "example.com" ++ str ".txt")
        = some (str "a.example.com\nb.example.com\nc.example.com\n")
      ∧ w'.fs.files (str "prev_httpx_res.txt") = some (str "https://a.example.com [200]\n")
      ∧ w'.fs.files (str "output." ++ str "example.com" ++ str ".txt") = none
      ∧ w'.fs.files (str "httpx_res.txt") = none :=
  have e : (removeDuplicates (linesLeft (some (str "a.example.com\nb.example.com\n"))
      ++ linesLeft none
      ++ linesLeft (some (str "c.example.com\na.example.com\n")))).flatMap (fun l => l ++ [10])
      = str "a.example.com\nb.example.com\nc.example.com\n" := by decide
  e ▸ main_rotates_snapshots sampleOracle (str "monitor") (str "words.txt")
    (str "example.com") [] sampleWorld (some (str "a.example.com\nb.example.com\n"))
    none (some (str "c.example.com\na.example.com\n"))
    (str "https://a.example.com [200]\n") rfl rfl rfl rfl rfl rfl (fun _ _ => rfl)

/-- C8 (as stated, refuted): for the domain `a/b` in an empty working directory, the three
enumerator runs and the shell pipeline exit successfully and the run completes, the current
subdomain output is the three names found, and yet `prev_output.a/b.txt` does not exist
afterwards: `os.Create` of `output.a/b.txt` fails (no directory `output.a`), `main`
discards the errors of `writeLines` and `os.Rename`, and nothing is rotated. -/
theorem main_missing_directory :
    ∃ w', main sampleOracle [str "monitor", str "words.txt", str "a/b"] missingDirWorld
        = .done () w'
      ∧ removeDuplicates (linesLeft (some (str "a.example.com\nb.example.com\n"))
          ++ linesLeft none ++ linesLeft (some (str "c.example.com\na.example.com\n")))
        = [str "a.example.com", str "b.example.com", str "c.example.com"]
      ∧ w'.fs.files (str "prev_output." ++ str "a/b" ++ str ".txt") = none
      ∧ w'.fs.files (str "prev_httpx_res.txt") = some (str "https://a.example.com [200]\n") := by
  refine ⟨_, rfl, ?_, ?_, ?_⟩
  · decide
  · decide
  · decide

theorem findAdded_nil (C : List GoString) : findAdded C [] = C := by
  rw [findAdded_eq_filter]
  simp

theorem findDeleted_nil (C : List GoString) : findDeleted C [] = [] := by
  rw [findDeleted_eq_filter]
  simp

theorem runHttpx_world (x : Oracle) (i o : GoString) (w : World) :
    (runHttpx x i o w).world.env = w.env
    ∧ posts (runHttpx x i o w).world.trace = posts w.trace := by
  unfold runHttpx
  rcases x.sh (httpxCommand i o) w.fs with ⟨e, fs⟩
  cases e with
  | none => exact ⟨rfl, log_Println_posts _ _⟩
  | some err => exact ⟨rfl, log_Println_posts _ _⟩

theorem runHttpx_result (x : Oracle) (i o : GoString) (w : World) (r : Run Unit)
    (h : runHttpx x i o w = r) :
    r.world.env = w.env ∧ posts r.world.trace = posts w.trace := by
  rw [← h]
  exact runHttpx_world x i o w

theorem runHttpx_done (x : Oracle) (i o : GoString) (w : World)
    (h : (x.sh (httpxCommand i o) w.fs).1 = none) :
    runHttpx x i o w = .done () (log_Println (str "httpx command executed successfully")
      { w with fs := (x.sh (httpxCommand i o) w.fs).2 }) := by
  unfold runHttpx
  rcases hs : x.sh (httpxCommand i o) w.fs with ⟨e, fs⟩
  rw [hs] at h
  simp only at h
  subst h
  rfl

/-- C5: when the previous-snapshot file does not exist, `readLines` hands the orchestrator
the empty list together with an error that `main` discards, and the run goes on: with a
webhook configured, the notifications of the run are one "Subdomain Added" post for every
line of the current snapshot, no "Subdomain Deleted" post, and then the service-change
posts; the run returns normally when the later shell pipeline exits with status 0.  For
every current list `C` the diff against that list is `findAdded C [] = C` and
`findDeleted C [] = []`. -/
theorem absent_previous_snapshot (x : Oracle) (prog wordlistFile websiteAddress : GoString)
    (rest : List GoString) (w : World) (o0 o1 o2 : Option GoString)
    (habsent : w.fs.files (str "prev_output." ++ websiteAddress ++ str ".txt") = none)
    (h0 : x.shuffledns wordlistFile websiteAddress (str "output_0.txt") = .ok o0)
    (h1 : x.shuffledns wordlistFile websiteAddress (str "output_1.txt") = .ok o1)
    (h2 : x.shuffledns wordlistFile websiteAddress (str "output_2.txt") = .ok o2) :
    (readLines w.fs (str "prev_output." ++ websiteAddress ++ str ".txt")).1 = []
    ∧ (readLines w.fs (str "prev_output." ++ websiteAddress ++ str ".txt")).2 ≠ none
    ∧ (∀ (url : GoString) (enc : GoString → GoString),
        w.env (str "DISCORD_TOKEN") = some url → url ≠ [] →
        (∀ m, x.jsonMarshal m = .ok (enc m)) →
        ∃ changes : List GoString,
          posts (main x (prog :: wordlistFile :: websiteAddress :: rest) w).world.trace
            = posts w.trace
              ++ ((readLines (writeLines
                    (removeDuplicates (linesLeft o0 ++ linesLeft o1 ++ linesLeft o2))
                    (str "output." ++ websiteAddress ++ str ".txt") w.fs).2
                  (str "output." ++ websiteAddress ++ str ".txt")).1.map
                  (fun sub => Event.httpPost url (str "application/json")
                    (enc (str "Subdomain Added: " ++ sub)))
                ++ changes.map (fun change => Event.httpPost url (str "application/json")
                    (enc (str "Service change: " ++ change)))))
    ∧ ((∀ fs, (x.sh (httpxCommand (str "prev_output." ++ websiteAddress ++ str ".txt")
          (str "httpx_res.txt")) fs).1 = none) →
        ∃ w', main x (prog :: wordlistFile :: websiteAddress :: rest) w = .done () w')
    ∧ (∀ C : List GoString,
        findAdded C (readLines w.fs (str "prev_output." ++ websiteAddress ++ str ".txt")).1 = C
        ∧ findDeleted C
            (readLines w.fs (str "prev_output." ++ websiteAddress ++ str ".txt")).1 = []) := by
  have hr := readLines_absent _ _ habsent
  obtain ⟨w3, hw3, hb3, hf3, he3, ht3⟩ := enumerateLoop_three x wordlistFile websiteAddress
    o0 o1 o2 (log_Println (str "Starting subdomain enumeration...") w) h0 h1 h2
  have hb3' : w3.fs.blocked = w.fs.blocked := hb3
  have hf3' : ∀ q, (∀ i, q ≠ str "output_" ++ itoa i ++ str ".txt") →
      w3.fs.files q = w.fs.files q := hf3
  have he3' : w3.env = w.env := he3
  have ht3' : posts w3.trace = posts w.trace := by rw [ht3, log_Println_posts]
  have hprevSubs : readLines (writeLines
      (removeDuplicates (linesLeft o0 ++ linesLeft o1 ++ linesLeft o2))
      (str "output." ++ websiteAddress ++ str ".txt") w3.fs).2
      (str "prev_output." ++ websiteAddress ++ str ".txt")
      = ([], some (.pathError (str "open")
          (str "prev_output." ++ websiteAddress ++ str ".txt") ENOENT)) := by
    apply readLines_absent
    rw [(writeLines_frame _ _ _).2 _ (outputFile_ne_prevOutputFile websiteAddress).symm,
      hf3' _ (prevOutputFile_ne_temp websiteAddress), habsent]
  have hcur : readLines (writeLines
      (removeDuplicates (linesLeft o0 ++ linesLeft o1 ++ linesLeft o2))
      (str "output." ++ websiteAddress ++ str ".txt") w3.fs).2
      (str "output." ++ websiteAddress ++ str ".txt")
      = readLines (writeLines
      (removeDuplicates (linesLeft o0 ++ linesLeft o1 ++ linesLeft o2))
      (str "output." ++ websiteAddress ++ str ".txt") w.fs).2
      (str "output." ++ websiteAddress ++ str ".txt") := by
    apply readLines_congr
    apply writeLines_congr
    · rw [hb3']
    · exact hf3' _ (outputFile_ne_temp websiteAddress)
  refine ⟨by rw [hr], by rw [hr]; simp, ?_, ?_, ?_⟩
  · intro url enc hurl hne henc
    unfold main
    simp only [hw3, log_Println_fs, hprevSubs, hcur, findAdded_nil, findDeleted_nil]
    generalize hrun : runHttpx x _ _ _ = r
    obtain ⟨henv, hposts⟩ := runHttpx_result x _ _ _ r hrun
    simp only [log_Println_env, notifySubdomainChanges_env, he3'] at henv
    simp only [log_Println_posts] at hposts
    rw [notifySubdomainChanges_posts x _ _ url enc _ hne henc] at hposts
    swap
    · rw [log_Println_env]
      exact he3' ▸ hurl
    simp only [log_Println_posts, ht3', List.map_nil, List.append_nil] at hposts
    cases r with
    | fatal wf =>
      refine ⟨[], ?_⟩
      simp only [Run.world] at henv hposts ⊢
      rw [hposts]
      simp
    | done u w7 =>
      simp only [Run.world] at henv hposts ⊢
      simp only [log_Println_posts]
      rw [notifyHttpxChanges_posts x _ url enc _ hne henc]
      swap
      · rw [log_Println_env, henv]
        exact hurl
      simp only [log_Println_posts, hposts]
      exact ⟨_, List.append_assoc _ _ _⟩
  · intro hok
    unfold main
    simp only [hw3]
    rw [runHttpx_done x _ _ _ (hok _)]
    exact ⟨_, rfl⟩
  · intro C
    rw [hr]
    exact ⟨findAdded_nil C, findDeleted_nil C⟩

theorem absent_previous_snapshot_witness :
    freshWorld.fs.files (str "prev_output." ++ str "example.com" ++ str ".txt") = none
    ∧ (readLines freshWorld.fs (str "prev_output." ++ str "example.com" ++ str ".txt")).1 = []
    ∧ (∃ changes : List GoString,
        posts (main sampleOracle [str "monitor", str "words.txt", str "example.com"]
            freshWorld).world.trace
          = posts freshWorld.trace
            ++ ((readLines (writeLines
                  (removeDuplicates (linesLeft (some (str "a.example.com\nb.example.com\n"))
                    ++ linesLeft none
                    ++ linesLeft (some (str "c.example.com\na.example.com\n"))))
                  (str "output." ++ str "example.com" ++ str ".txt") freshWorld.fs).2
                (str "output." ++ str "example.com" ++ str ".txt")).1.map
                (fun sub => Event.httpPost (str "https://hook.example/1")
                  (str "application/json") (str "\"" ++ (str "Subdomain Added: " ++ sub)
                    ++ str "\""))
              ++ changes.map (fun change => Event.httpPost (str "https://hook.example/1")
                  (str "application/json") (str "\"" ++ (str "Service change: " ++ change)
                    ++ str "\""))))
    ∧ (readLines (writeLines
          (removeDuplicates (linesLeft (some (str "a.example.com\nb.example.com\n"))
            ++ linesLeft none
            ++ linesLeft (some (str "c.example.com\na.example.com\n"))))
          (str "output." ++ str "example.com" ++ str ".txt") freshWorld.fs).2
        (str "output." ++ str "example.com" ++ str ".txt")).1
      = [str "a.example.com", str "b.example.com", str "c.example.com"]
    ∧ (∃ w', main sampleOracle [str "monitor", str "words.txt", str "example.com"] freshWorld
        = .done () w')
    ∧ findAdded [str "x.example.com"]
        (readLines freshWorld.fs (str "prev_output." ++ str "example.com" ++ str ".txt")).1
        = [str "x.example.com"]
    ∧ findDeleted [str "x.example.com"]
        (readLines freshWorld.fs (str "prev_output." ++ str "example.com" ++ str ".txt")).1
        = [] :=
  have h := absent_previous_snapshot sampleOracle (str "monitor") (str "words.txt")
    (str "example.com") [] freshWorld (some (str "a.example.com\nb.example.com\n"))
    none (some (str "c.example.com\na.example.com\n")) rfl rfl rfl rfl
  ⟨rfl, h.1,
    h.2.2.1 (str "https://hook.example/1") (fun content => str "\"" ++ content ++ str "\"")
      rfl (by decide) (fun _ => rfl),
    by decide, h.2.2.2.1 (fun _ => rfl),
    (h.2.2.2.2 [str "x.example.com"]).1, (h.2.2.2.2 [str "x.example.com"]).2⟩

/-- C9: for previous = ["a.example.com", "b.example.com"] and
current = ["b.example.com", "c.example.com"], `findAdded` gives ["c.example.com"] and
`findDeleted` gives ["a.example.com"]. -/
theorem scenario_added_deleted :
    findAdded [str "b.example.com", str "c.example.com"]
        [str "a.example.com", str "b.example.com"] = [str "c.example.com"]
    ∧ findDeleted [str "b.example.com", str "c.example.com"]
        [str "a.example.com", str "b.example.com"] = [str "a.example.com"] := by
  decide

end SubdomainMonitor
